import Mathlib

/-!
Verification development for the heavy-flavor candidate selection helpers of
`PWGEM/PhotonMeson/TableProducer/GammaTableProducer.cxx` (HFFilterHelpers) and
the Dalitz pairing task of `PWGDQ/Tasks/DalitzSelection.cxx`.

Floating-point quantities whose use is purely order/field arithmetic are
modelled as exact rationals; quantities flowing through square roots
(invariant masses, quadrature sums, relative momenta) are modelled as exact
reals.  Machine `int8_t`/`uint8_t` bitmasks are modelled as `Nat` (with an
explicit `% 256` where the source truncates to eight bits).
-/

set_option maxHeartbeats 1000000

namespace HFFilters

/-! ### PID species tags (`enum PIDSpecies`) -/

/-- `kEl = 0` in `enum PIDSpecies`. -/
def kEl : ℕ := 0

/-- `kKa = 1` in `enum PIDSpecies`. -/
def kKa : ℕ := 1

/-- `kPi = 2` in `enum PIDSpecies`. -/
def kPi : ℕ := 2

/-- `kPr = 3` in `enum PIDSpecies`. -/
def kPr : ℕ := 3

/-! ### Calibration tables (TH3F mean/sigma histograms) -/

/-- A fixed-bin histogram axis, as used by the TH3F calibration histograms:
`nbins` regular bins covering `[lo, hi)` plus underflow bin `0` and overflow
bin `nbins + 1`. -/
structure Axis where
  nbins : ℕ
  lo : ℚ
  hi : ℚ

/-- `TAxis::FindBin` for fixed bins: underflow gives `0`, overflow gives
`nbins + 1`, otherwise `1 + Int(nbins * (x - lo) / (hi - lo))`. -/
def Axis.findBin (a : Axis) (x : ℚ) : ℕ :=
  if x < a.lo then 0
  else if a.hi ≤ x then a.nbins + 1
  else 1 + (⌊(a.nbins : ℚ) * (x - a.lo) / (a.hi - a.lo)⌋).toNat

/-- The bin-index clamping performed in `getTPCPostCalib`:
`bin = (bin == 0 ? 1 : bin); bin = std::min(GetNbins(), bin)`. -/
def clampBin (a : Axis) (x : ℚ) : ℕ :=
  min a.nbins (if a.findBin x = 0 then 1 else a.findBin x)

/-- A 3-D calibration histogram (TH3F): three axes plus the stored bin
contents, addressed by (x-bin, y-bin, z-bin). -/
structure Calib3D where
  axisX : Axis
  axisY : Axis
  axisZ : Axis
  content : ℕ → ℕ → ℕ → ℚ

/-! ### Tracks (the fields of the O2 track records read by the helpers) -/

/-- The track observables read by the selection helpers. -/
structure Track where
  pt : ℚ
  p : ℚ
  eta : ℚ
  tpcNClsFound : ℚ
  tpcInnerParam : ℚ
  tpcNSigmaKa : ℚ
  tpcNSigmaPi : ℚ
  tpcNSigmaPr : ℚ
  tofNSigmaPr : ℚ
  hasTOF : Bool
  isGlobalTrack : Bool
  deriving DecidableEq

/-- The species dispatch at the top of `getTPCPostCalib`: `kKa`, `kPi` and
`kPr` select the corresponding raw TPC deviation; any other tag reaches
`LOG(fatal)`, modelled as `none`. -/
def rawTPCNSigma (track : Track) (pidSpecies : ℕ) : Option ℚ :=
  if pidSpecies = kKa then some track.tpcNSigmaKa
  else if pidSpecies = kPi then some track.tpcNSigmaPi
  else if pidSpecies = kPr then some track.tpcNSigmaPr
  else none

/-- The arithmetic core of `getTPCPostCalib`: clamp the three bin indices
computed on the mean histogram's axes and return
`(tpcNSigma - mean) / width` at that 3-D bin. -/
def tpcCorrected (hCalibMean hCalibSigma : Calib3D) (track : Track)
    (tpcNSigma : ℚ) : ℚ :=
  let binTPCNCls := clampBin hCalibMean.axisX track.tpcNClsFound
  let binPin := clampBin hCalibMean.axisY track.tpcInnerParam
  let binEta := clampBin hCalibMean.axisZ track.eta
  let mean := hCalibMean.content binTPCNCls binPin binEta
  let width := hCalibSigma.content binTPCNCls binPin binEta
  (tpcNSigma - mean) / width

/-- `getTPCPostCalib` from HFFilterHelpers: select the raw deviation for the
species (fatal on an unhandled tag), then apply the clamped-bin correction. -/
def getTPCPostCalib (hCalibMean hCalibSigma : Calib3D) (track : Track)
    (pidSpecies : ℕ) : Option ℚ :=
  (rawTPCNSigma track pidSpecies).map (tpcCorrected hCalibMean hCalibSigma track)

/-! ### Single-track selections -/

/-- `isSelectedProton4CharmBaryons`: TPC deviation (optionally
post-calibrated, via the `kPr` branch of `getTPCPostCalib`) within threshold;
if the track has TOF, additionally the TOF deviation within threshold. -/
def isSelectedProton4CharmBaryons (track : Track)
    (nsigmaTPCProtonLc nsigmaTOFProtonLc : ℚ) (computeTPCPostCalib : Bool)
    (hMapProtonMean hMapProtonSigma : Calib3D) : Bool :=
  let nSigmaTPC :=
    if computeTPCPostCalib then
      tpcCorrected hMapProtonMean hMapProtonSigma track track.tpcNSigmaPr
    else track.tpcNSigmaPr
  if |nSigmaTPC| > nsigmaTPCProtonLc then false
  else if track.hasTOF ∧ |track.tofNSigmaPr| > nsigmaTOFProtonLc then false
  else true

/-! ### BDT score classification -/

/-- The three BDT thresholds of the `LabelledArray` row
(`BDTbkg`, `BDTprompt`, `BDTnonprompt`). -/
structure BDTThresholds where
  bdtBkg : ℚ
  bdtPrompt : ℚ
  bdtNonprompt : ℚ
  deriving DecidableEq

/-- `isBDTSelected`: fewer than three scores rejects; a background score above
threshold rejects; otherwise `BIT(RecoDecay::OriginType::Prompt) = 2` is set
when the prompt score exceeds its threshold and
`BIT(RecoDecay::OriginType::NonPrompt) = 4` when the non-prompt score does. -/
def isBDTSelected (scores : List ℚ) (thresholdBDTScores : BDTThresholds) : ℕ :=
  if scores.length < 3 then 0
  else if scores.getD 0 0 > thresholdBDTScores.bdtBkg then 0
  else
    (if scores.getD 1 0 > thresholdBDTScores.bdtPrompt then 2 else 0) |||
    (if scores.getD 2 0 > thresholdBDTScores.bdtNonprompt then 4 else 0)

/-! ### Independent-candidate counting -/

/-- The inner double loop of `computeNumberOfCandidates`: do two candidates
share a daughter-track index? -/
def hasOverlap (xs ys : List ℤ) : Bool :=
  xs.any fun a => ys.any fun b => a == b

/-- How many other candidates the candidate at position `i` shares no daughter
index with. -/
def nIndependentOf (indices : List (List ℤ)) (i : ℕ) : ℕ :=
  ((List.range indices.length).filter fun j =>
    j != i && !hasOverlap (indices.getD i []) (indices.getD j [])).length

/-- `computeNumberOfCandidates`: fewer than two candidates returns the count;
otherwise the per-candidate independence counts are sorted ascending and the
last (i.e. the maximum, modelled by `foldl max 0`) decides: maximum `0`
returns `0`, anything else returns the sentinel `2`. -/
def computeNumberOfCandidates (indices : List (List ℤ)) : ℕ :=
  if indices.length < 2 then indices.length
  else
    let numIndependentCand := (List.range indices.length).map (nIndependentOf indices)
    if numIndependentCand.foldl max 0 = 0 then 0 else 2

/-! ### Three-vectors and relativistic kinematics (exact reals) -/

/-- A three-momentum vector. -/
@[ext]
structure Vec3 where
  x : ℝ
  y : ℝ
  z : ℝ

/-- The zero vector. -/
def vzero : Vec3 := ⟨0, 0, 0⟩

/-- Componentwise sum. -/
def vadd (a b : Vec3) : Vec3 := ⟨a.x + b.x, a.y + b.y, a.z + b.z⟩

/-- Componentwise difference. -/
def vsub (a b : Vec3) : Vec3 := ⟨a.x - b.x, a.y - b.y, a.z - b.z⟩

/-- Scalar multiple. -/
def smul (c : ℝ) (v : Vec3) : Vec3 := ⟨c * v.x, c * v.y, c * v.z⟩

/-- Euclidean dot product. -/
def vdot (a b : Vec3) : ℝ := a.x * b.x + a.y * b.y + a.z * b.z

/-- Squared Euclidean norm. -/
def normSq (v : Vec3) : ℝ := vdot v v

/-! PDG masses used by the helpers (`RecoDecay::getMassPDG`). -/

/-- PDG charged-pion mass (GeV). -/
noncomputable def massPi : ℝ := 0.13957039

/-- PDG charged-kaon mass (GeV). -/
noncomputable def massK : ℝ := 0.493677

/-- PDG proton mass (GeV). -/
noncomputable def massProton : ℝ := 0.93827208816

/-- PDG D0 mass (GeV). -/
noncomputable def massD0 : ℝ := 1.86484

/-- PDG D+ mass (GeV). -/
noncomputable def massDPlus : ℝ := 1.86966

/-- PDG Ds mass (GeV). -/
noncomputable def massDs : ℝ := 1.96835

/-- PDG Lambda-c mass (GeV). -/
noncomputable def massLc : ℝ := 2.28646

/-- PDG Xi-c mass (GeV). -/
noncomputable def massXic : ℝ := 2.46794

/-- Relativistic energy of a momentum `p` under mass hypothesis `m`:
`E = sqrt(|p|^2 + m^2)`. -/
noncomputable def energyOf (p : Vec3) (m : ℝ) : ℝ :=
  Real.sqrt (normSq p + m ^ 2)

/-- `RecoDecay::m` for two daughters: the invariant mass
`sqrt(E^2 - |P|^2)` of the summed four-vector (exact-real model of the
floating computation; a spacelike sum, NaN in the source, is sent to `0` by
`Real.sqrt`). -/
noncomputable def recoM2 (p1 p2 : Vec3) (m1 m2 : ℝ) : ℝ :=
  Real.sqrt ((energyOf p1 m1 + energyOf p2 m2) ^ 2 - normSq (vadd p1 p2))

/-- `RecoDecay::m` for three daughters. -/
noncomputable def recoM3 (p1 p2 p3 : Vec3) (m1 m2 m3 : ℝ) : ℝ :=
  Real.sqrt ((energyOf p1 m1 + energyOf p2 m2 + energyOf p3 m3) ^ 2 -
    normSq (vadd (vadd p1 p2) p3))

/-! ### QA histogram fills

The helpers optionally fill QA histograms; the fills are modelled as an
explicit event list returned next to the selection decision. -/

/-- One QA histogram fill: a 1-D fill or a 2-D fill, tagged with the
histogram name. -/
inductive QAEvent where
  | fill1 (histo : String) (x : ℝ)
  | fill2 (histo : String) (x y : ℝ)

open scoped Classical in
/-- `isSelectedD0InMassRange`: for each hypothesis bit proposed in
`isSelected`, compute the invariant mass, optionally fill the QA histogram,
and set the output bit when within `deltaMassCharmHadronForBeauty` of the D0
mass. -/
noncomputable def isSelectedD0InMassRange (pTrackPos pTrackNeg : Vec3)
    (ptD : ℝ) (isSelected : ℕ) (deltaMassCharmHadronForBeauty : ℝ)
    (activateQA : ℤ) : ℕ × List QAEvent :=
  let step0 : ℕ × List QAEvent :=
    if isSelected.testBit 0 then
      let invMassD0 := recoM2 pTrackPos pTrackNeg massPi massK
      ((if |invMassD0 - massD0| < deltaMassCharmHadronForBeauty then 1 else 0),
       if activateQA ≠ 0 then [QAEvent.fill2 "hMassVsPtD0" ptD invMassD0] else [])
    else (0, [])
  let step1 : ℕ × List QAEvent :=
    if isSelected.testBit 1 then
      let invMassD0bar := recoM2 pTrackPos pTrackNeg massK massPi
      ((if |invMassD0bar - massD0| < deltaMassCharmHadronForBeauty then 2 else 0),
       if activateQA ≠ 0 then [QAEvent.fill2 "hMassVsPtD0" ptD invMassD0bar] else [])
    else (0, [])
  (step0.1 ||| step1.1, step0.2 ++ step1.2)

open scoped Classical in
/-- `isSelectedDplusInMassRange`: single-hypothesis mass window around the D+
mass (QA fill happens for every candidate). -/
noncomputable def isSelectedDplusInMassRange
    (pTrackSameChargeFirst pTrackSameChargeSecond pTrackOppositeCharge : Vec3)
    (ptD : ℝ) (deltaMassCharmHadronForBeauty : ℝ) (activateQA : ℤ) :
    ℕ × List QAEvent :=
  let invMassDplus := recoM3 pTrackSameChargeFirst pTrackSameChargeSecond
    pTrackOppositeCharge massPi massPi massK
  let fills := if activateQA ≠ 0 then
    [QAEvent.fill2 "hMassVsPtDplus" ptD invMassDplus] else []
  if |invMassDplus - massDPlus| > deltaMassCharmHadronForBeauty then (0, fills)
  else (1, fills)

open scoped Classical in
/-- `isSelectedDsInMassRange`: per-hypothesis (KKpi / piKK) mass window around
the Ds mass, gated by the bits of `isSelected`. -/
noncomputable def isSelectedDsInMassRange
    (pTrackSameChargeFirst pTrackSameChargeSecond pTrackOppositeCharge : Vec3)
    (ptD : ℝ) (isSelected : ℕ) (deltaMassCharmHadronForBeauty : ℝ)
    (activateQA : ℤ) : ℕ × List QAEvent :=
  let step0 : ℕ × List QAEvent :=
    if isSelected.testBit 0 then
      let invMassDsToKKPi := recoM3 pTrackSameChargeFirst pTrackOppositeCharge
        pTrackSameChargeSecond massK massK massPi
      ((if |invMassDsToKKPi - massDs| < deltaMassCharmHadronForBeauty then 1 else 0),
       if activateQA ≠ 0 then [QAEvent.fill2 "hMassVsPtDs" ptD invMassDsToKKPi] else [])
    else (0, [])
  let step1 : ℕ × List QAEvent :=
    if isSelected.testBit 1 then
      let invMassDsToPiKK := recoM3 pTrackSameChargeFirst pTrackOppositeCharge
        pTrackSameChargeSecond massPi massK massK
      ((if |invMassDsToPiKK - massDs| < deltaMassCharmHadronForBeauty then 2 else 0),
       if activateQA ≠ 0 then [QAEvent.fill2 "hMassVsPtDs" ptD invMassDsToPiKK] else [])
    else (0, [])
  (step0.1 ||| step1.1, step0.2 ++ step1.2)

open scoped Classical in
/-- `isSelectedLcInMassRange`: per-hypothesis (pKpi / piKp) mass window around
the Lambda-c mass, gated by the bits of `isSelected`. -/
noncomputable def isSelectedLcInMassRange
    (pTrackSameChargeFirst pTrackSameChargeSecond pTrackOppositeCharge : Vec3)
    (ptLc : ℝ) (isSelected : ℕ) (deltaMassCharmHadronForBeauty : ℝ)
    (activateQA : ℤ) : ℕ × List QAEvent :=
  let step0 : ℕ × List QAEvent :=
    if isSelected.testBit 0 then
      let invMassLcToPKPi := recoM3 pTrackSameChargeFirst pTrackOppositeCharge
        pTrackSameChargeSecond massProton massK massPi
      ((if |invMassLcToPKPi - massLc| < deltaMassCharmHadronForBeauty then 1 else 0),
       if activateQA ≠ 0 then [QAEvent.fill2 "hMassVsPtLc" ptLc invMassLcToPKPi] else [])
    else (0, [])
  let step1 : ℕ × List QAEvent :=
    if isSelected.testBit 1 then
      let invMassLcToPiKP := recoM3 pTrackSameChargeFirst pTrackOppositeCharge
        pTrackSameChargeSecond massPi massK massProton
      ((if |invMassLcToPiKP - massLc| < deltaMassCharmHadronForBeauty then 2 else 0),
       if activateQA ≠ 0 then [QAEvent.fill2 "hMassVsPtLc" ptLc invMassLcToPiKP] else [])
    else (0, [])
  (step0.1 ||| step1.1, step0.2 ++ step1.2)

open scoped Classical in
/-- `isSelectedXicInMassRange`: per-hypothesis (pKpi / piKp) mass window
around the Xi-c mass, gated by the bits of `isSelected`. -/
noncomputable def isSelectedXicInMassRange
    (pTrackSameChargeFirst pTrackSameChargeSecond pTrackOppositeCharge : Vec3)
    (ptXic : ℝ) (isSelected : ℕ) (deltaMassCharmHadronForBeauty : ℝ)
    (activateQA : ℤ) : ℕ × List QAEvent :=
  let step0 : ℕ × List QAEvent :=
    if isSelected.testBit 0 then
      let invMassXicToPKPi := recoM3 pTrackSameChargeFirst pTrackOppositeCharge
        pTrackSameChargeSecond massProton massK massPi
      ((if |invMassXicToPKPi - massXic| < deltaMassCharmHadronForBeauty then 1 else 0),
       if activateQA ≠ 0 then [QAEvent.fill2 "hMassVsPtXic" ptXic invMassXicToPKPi] else [])
    else (0, [])
  let step1 : ℕ × List QAEvent :=
    if isSelected.testBit 1 then
      let invMassXicToPiKP := recoM3 pTrackSameChargeFirst pTrackOppositeCharge
        pTrackSameChargeSecond massPi massK massProton
      ((if |invMassXicToPiKP - massXic| < deltaMassCharmHadronForBeauty then 2 else 0),
       if activateQA ≠ 0 then [QAEvent.fill2 "hMassVsPtXic" ptXic invMassXicToPiKP] else [])
    else (0, [])
  (step0.1 ||| step1.1, step0.2 ++ step1.2)

open scoped Classical in
/-- `isSelectedProton4Femto`: pT, eta and global-track quality cuts, then a
combined PID deviation (TOF-only absolute value, or TPC/TOF quadrature sum)
against `femtoMaxNsigmaProton`; QA fills happen on acceptance when
`activateQA > 1`. -/
noncomputable def isSelectedProton4Femto (track : Track)
    (femtoMinProtonPt femtoMaxNsigmaProton : ℚ)
    (femtoProtonOnlyTOF computeTPCPostCalib : Bool)
    (hMapProtonMean hMapProtonSigma : Calib3D) (activateQA : ℤ) :
    Bool × List QAEvent :=
  if track.pt < femtoMinProtonPt then (false, [])
  else if |track.eta| > 0.8 then (false, [])
  else if track.isGlobalTrack ≠ true then (false, [])
  else
    let nSigmaTPC : ℚ :=
      if computeTPCPostCalib then
        tpcCorrected hMapProtonMean hMapProtonSigma track track.tpcNSigmaPr
      else track.tpcNSigmaPr
    let nSigmaTOF : ℚ := track.tofNSigmaPr
    let nSigma : ℝ :=
      if femtoProtonOnlyTOF then |(nSigmaTOF : ℝ)|
      else Real.sqrt ((nSigmaTPC : ℝ) ^ 2 + (nSigmaTOF : ℝ) ^ 2)
    if nSigma > (femtoMaxNsigmaProton : ℝ) then (false, [])
    else (true,
      if activateQA > 1 then
        [QAEvent.fill2 "hProtonTPCPID" (track.p : ℝ) (nSigmaTPC : ℝ),
         QAEvent.fill2 "hProtonTOFPID" (track.p : ℝ) (nSigmaTOF : ℝ)]
      else [])

/-- The gamma-conversion candidate observables read by `isSelectedGamma`. -/
structure Gamma where
  eta : ℚ
  v0radius : ℚ
  alpha : ℚ
  qtarm : ℚ
  psipair : ℚ
  deriving DecidableEq

open scoped Classical in
/-- `isSelectedGamma`: sequential eta, conversion-radius, Armenteros-Podolanski
ellipse, psi-pair and pointing-angle cuts, with QA fills before the cuts, at
each rejection, and after acceptance when `activateQA > 1`. -/
noncomputable def isSelectedGamma (gamma : Gamma) (gammaCosinePA : ℚ)
    (activateQA : ℤ) : Bool × List QAEvent :=
  let pre : List QAEvent :=
    if activateQA > 1 then
      [QAEvent.fill1 "hGammaSelected" 0,
       QAEvent.fill1 "hGammaEtaBefore" (gamma.eta : ℝ),
       QAEvent.fill2 "hGammaArmPodBefore" (gamma.alpha : ℝ) (gamma.qtarm : ℝ)]
    else []
  if |gamma.eta| > 0.8 then
    (false, pre ++ if activateQA > 1 then [QAEvent.fill1 "hGammaSelected" 1] else [])
  else if gamma.v0radius < 0 ∨ gamma.v0radius > 180 then
    (false, pre ++ if activateQA > 1 then [QAEvent.fill1 "hGammaSelected" 2] else [])
  else if (gamma.alpha / 0.95) ^ 2 + (gamma.qtarm / 0.05) ^ 2 ≥ 1 then
    (false, pre ++ if activateQA > 1 then [QAEvent.fill1 "hGammaSelected" 3] else [])
  else if |gamma.psipair| > 0.1 then
    (false, pre ++ if activateQA > 1 then [QAEvent.fill1 "hGammaSelected" 4] else [])
  else if gammaCosinePA < 0.85 then
    (false, pre ++ if activateQA > 1 then [QAEvent.fill1 "hGammaSelected" 5] else [])
  else
    (true, pre ++
      if activateQA > 1 then
        [QAEvent.fill1 "hGammaSelected" 6,
         QAEvent.fill1 "hGammaEtaAfter" (gamma.eta : ℝ),
         QAEvent.fill2 "hGammaArmPodAfter" (gamma.alpha : ℝ) (gamma.qtarm : ℝ)]
      else [])

/-! ### Femtoscopy relative momentum -/

/-- The Lorentz factor of a boost with velocity vector `b`:
`gamma = 1 / sqrt(1 - |b|^2)`. -/
noncomputable def gammaOf (b : Vec3) : ℝ :=
  1 / Real.sqrt (1 - vdot b b)

/-- The `gamma^2 / (1 + gamma)` coefficient of the ROOT `Boost` matrix. -/
noncomputable def bgammaOf (b : Vec3) : ℝ :=
  gammaOf b ^ 2 / (1 + gammaOf b)

/-- The spatial part of a ROOT `Boost` with velocity `b` applied to a
four-vector with energy `e` and momentum `p`:
`p + (bgamma * (b . p) + gamma * e) * b`. -/
noncomputable def boostSpatial (b : Vec3) (e : ℝ) (p : Vec3) : Vec3 :=
  vadd p (smul (bgammaOf b * vdot b p + gammaOf b * e) b)

/-- The `BoostToCM` velocity of the pair: `-P / E` of the summed four-vector. -/
noncomputable def betaCM (p1 p2 : Vec3) (m1 m2 : ℝ) : Vec3 :=
  smul (-(1 / (energyOf p1 m1 + energyOf p2 m2))) (vadd p1 p2)

/-- `computeRelativeMomentum`: build the proton-hypothesis and
charm-candidate four-vectors, boost both into their combined rest frame, and
return half the magnitude of the difference three-momentum there. -/
noncomputable def computeRelativeMomentum (trackMom : Vec3)
    (charmCandMomentum : Vec3) (charmMass : ℝ) : ℝ :=
  let e1 := energyOf trackMom massProton
  let e2 := energyOf charmCandMomentum charmMass
  let b := betaCM trackMom charmCandMomentum massProton charmMass
  let part1CM := boostSpatial b e1 trackMom
  let part2CM := boostSpatial b e2 charmCandMomentum
  (1 / 2) * Real.sqrt (normSq (vsub part1CM part2CM))

/-- A rigid rotation of three-dimensional space: a linear map preserving the
dot product (every rotation matrix satisfies these). -/
structure IsRotation (r : Vec3 → Vec3) : Prop where
  map_vadd : ∀ u v, r (vadd u v) = vadd (r u) (r v)
  map_smul : ∀ c v, r (smul c v) = smul c (r v)
  map_vdot : ∀ u v, vdot (r u) (r v) = vdot u v

end HFFilters

namespace DalitzSel

/-- The track fields the Dalitz pairing reads directly; the observables the
configured cuts consume are abstracted into the cut predicates themselves. -/
structure DTrack where
  globalIndex : ℕ
  sign : ℤ
  deriving DecidableEq

/-- `m |= (uint8_t(1) << i)` on a `uint8_t` bitmap: set bit `i` and truncate
to eight bits. -/
def setBit8 (m i : ℕ) : ℕ :=
  (m ||| (1 <<< i)) % 256

/-- The filter map built by the track-cut loop of `runTrackSelection`: bit `i`
is set iff track cut `i` accepts the track. -/
def filterMapOf (trackCuts : List (DTrack → Bool)) (t : DTrack) : ℕ :=
  (List.range trackCuts.length).foldl
    (fun fm i => if (trackCuts.getD i fun _ => false) t then setBit8 fm i else fm) 0

/-- Point update of an index-keyed map (`std::map` insertion; absent keys read
as `0`). -/
def updateMap (m : ℕ → ℕ) (g v : ℕ) : ℕ → ℕ :=
  fun g' => if g' = g then v else m g'

/-- `runTrackSelection`: evaluate every track cut on every track and store the
(nonzero) filter maps keyed by global index. -/
def runTrackSelection (trackCuts : List (DTrack → Bool))
    (tracksBarrel : List DTrack) : ℕ → ℕ :=
  tracksBarrel.foldl
    (fun tm t =>
      let fm := filterMapOf trackCuts t
      if fm ≠ 0 then updateMap tm t.globalIndex fm else tm)
    (fun _ => 0)

/-- `fDalitzmap[g] |= (uint8_t(1) << i)`. -/
def orBit (m : ℕ → ℕ) (g i : ℕ) : ℕ → ℕ :=
  updateMap m g (setBit8 (m g) i)

/-- The body of the pair loop of `runDalitzPairing` for one ordered pair:
skip same-sign pairs, AND the two filter maps, and for every cut index with
the bit set whose pair cut accepts, set that Dalitz bit for both tracks. -/
def pairStep (pairCuts : List (DTrack → DTrack → Bool)) (tm : ℕ → ℕ)
    (dm : ℕ → ℕ) (t1 t2 : DTrack) : ℕ → ℕ :=
  if t1.sign * t2.sign > 0 then dm
  else
    let twoTracksFilterMap := tm t1.globalIndex &&& tm t2.globalIndex
    if twoTracksFilterMap = 0 then dm
    else
      (List.range pairCuts.length).foldl
        (fun dm' icut =>
          if twoTracksFilterMap.testBit icut then
            if (pairCuts.getD icut fun _ _ => false) t1 t2 then
              orBit (orBit dm' t1.globalIndex icut) t2.globalIndex icut
            else dm'
          else dm')
        dm

/-- `CombinationsStrictlyUpperIndexPolicy(tracks, tracks)`: all ordered pairs
`(tracks[i], tracks[j])` with `i < j`. -/
def pairsSU {α : Type} : List α → List (α × α)
  | [] => []
  | t :: ts => (ts.map fun u => (t, u)) ++ pairsSU ts

/-- `runDalitzPairing`: fold the pair loop over all strictly-upper pairs,
starting from the cleared Dalitz map. -/
def runDalitzPairing (pairCuts : List (DTrack → DTrack → Bool))
    (tracks : List DTrack) (tm : ℕ → ℕ) : ℕ → ℕ :=
  (pairsSU tracks).foldl (fun dm p => pairStep pairCuts tm dm p.1 p.2)
    (fun _ => 0)

/-- One event of `processFullTracks`: run the track selection on the grouped
tracks, then the Dalitz pairing on the same list against itself; the result
maps each global index to the Dalitz bitmap emitted for that track. -/
def dalitzBitsOfEvent (trackCuts : List (DTrack → Bool))
    (pairCuts : List (DTrack → DTrack → Bool)) (tracks : List DTrack) :
    ℕ → ℕ :=
  runDalitzPairing pairCuts tracks (runTrackSelection trackCuts tracks)

end DalitzSel

namespace HFFilters

/-! ### Concrete sample objects used by witness theorems -/

/-- A single-bin axis over `[0, 1)`. -/
def axisUnit : Axis := ⟨1, 0, 1⟩

/-- A calibration table with unit axes and all bin contents `1`. -/
def calUnit : Calib3D := ⟨axisUnit, axisUnit, axisUnit, fun _ _ _ => 1⟩

/-- A track with all observables zero, no TOF, flagged as a global track. -/
def trackZero : Track :=
  ⟨0, 0, 0, 0, 0, 0, 0, 0, 0, false, true⟩

/-- The quarter-turn about the z axis, a concrete rotation. -/
def rotZ : Vec3 → Vec3 := fun v => ⟨-v.y, v.x, v.z⟩

end HFFilters

namespace DalitzSel

/-- A positive sample track. -/
def dtPos : DTrack := ⟨0, 1⟩

/-- A negative sample track. -/
def dtNeg : DTrack := ⟨1, -1⟩

/-- A single always-true track cut. -/
def cutsAll : List (DTrack → Bool) := [fun _ => true]

/-- A single always-true pair cut. -/
def pairCutsAll : List (DTrack → DTrack → Bool) := [fun _ _ => true]

end DalitzSel

namespace HFFilters

/-! ### Bitmask helper lemmas -/

/-- A mask all of whose set bits are set in `s` is unchanged by `&&& s`. -/
theorem land_eq_self_of_testBit (n s : ℕ)
    (h : ∀ i, n.testBit i = true → s.testBit i = true) : n &&& s = n := by
  apply Nat.eq_of_testBit_eq
  intro i
  rw [Nat.testBit_land]
  cases hn : n.testBit i with
  | false => simp
  | true => simp [h i hn]

/-- Bits of the constant `1`. -/
theorem testBit_one_iff (i : ℕ) : (1 : ℕ).testBit i = decide (0 = i) := by
  have h : (1 : ℕ) = 2 ^ 0 := rfl
  rw [h, Nat.testBit_two_pow]

/-- Bits of the constant `2`. -/
theorem testBit_two_iff (i : ℕ) : (2 : ℕ).testBit i = decide (1 = i) := by
  have h : (2 : ℕ) = 2 ^ 1 := rfl
  rw [h, Nat.testBit_two_pow]

/-- Bits of the constant `3`. -/
theorem testBit_three_iff (i : ℕ) :
    (3 : ℕ).testBit i = (decide (0 = i) || decide (1 = i)) := by
  have h : (3 : ℕ) = 2 ^ 0 ||| 2 ^ 1 := rfl
  rw [h, Nat.testBit_lor, Nat.testBit_two_pow, Nat.testBit_two_pow]

/-- Bits of the constant `4`. -/
theorem testBit_four_iff (i : ℕ) : (4 : ℕ).testBit i = decide (2 = i) := by
  have h : (4 : ℕ) = 2 ^ 2 := rfl
  rw [h, Nat.testBit_two_pow]

/-- Bits of the constant `6`. -/
theorem testBit_six_iff (i : ℕ) :
    (6 : ℕ).testBit i = (decide (1 = i) || decide (2 = i)) := by
  have h : (6 : ℕ) = 2 ^ 1 ||| 2 ^ 2 := rfl
  rw [h, Nat.testBit_lor, Nat.testBit_two_pow, Nat.testBit_two_pow]

/-- A two-bit value whose bit 0 is only set when `s` has bit 0 and whose bit 1
is only set when `s` has bit 1 is a sub-mask of `s`. -/
theorem two_bit_subset (s a b : ℕ)
    (ha : a = 0 ∨ (a = 1 ∧ s.testBit 0 = true))
    (hb : b = 0 ∨ (b = 2 ∧ s.testBit 1 = true)) :
    (a ||| b) &&& s = a ||| b := by
  apply land_eq_self_of_testBit
  intro i hi
  rcases ha with rfl | ⟨rfl, h0⟩ <;> rcases hb with rfl | ⟨rfl, h1⟩
  · simp at hi
  · rw [show (0 ||| 2 : ℕ) = 2 from rfl, testBit_two_iff] at hi
    have : (1 : ℕ) = i := by simpa using hi
    rwa [← this]
  · rw [show (1 ||| 0 : ℕ) = 1 from rfl, testBit_one_iff] at hi
    have : (0 : ℕ) = i := by simpa using hi
    rwa [← this]
  · rw [show (1 ||| 2 : ℕ) = 3 from rfl, testBit_three_iff] at hi
    rcases (by simpa using hi : (0 : ℕ) = i ∨ (1 : ℕ) = i) with h | h
    · rwa [← h]
    · rwa [← h]

/-! ### Claim C1: BDT score classification -/

/-- Claim C1: for every score sequence and threshold configuration,
`isBDTSelected` returns the empty bitmask when fewer than 3 scores are
supplied; returns the empty bitmask whenever the background score exceeds the
background threshold, regardless of the other scores; and otherwise sets the
prompt bit (bit 1) iff the prompt score exceeds the prompt threshold and,
independently, the non-prompt bit (bit 2) iff the non-prompt score exceeds
its threshold, with no other bit ever set. -/
theorem isBDTSelected_characterization (scores : List ℚ) (thr : BDTThresholds) :
    (scores.length < 3 → isBDTSelected scores thr = 0) ∧
    (3 ≤ scores.length → thr.bdtBkg < scores.getD 0 0 →
      isBDTSelected scores thr = 0) ∧
    (3 ≤ scores.length → scores.getD 0 0 ≤ thr.bdtBkg →
      ((isBDTSelected scores thr).testBit 1 = true ↔
        thr.bdtPrompt < scores.getD 1 0) ∧
      ((isBDTSelected scores thr).testBit 2 = true ↔
        thr.bdtNonprompt < scores.getD 2 0) ∧
      (∀ i, i ≠ 1 → i ≠ 2 → (isBDTSelected scores thr).testBit i = false)) := by
  refine ⟨?_, ?_, ?_⟩
  · intro h
    simp [isBDTSelected, h]
  · intro h3 hbkg
    unfold isBDTSelected
    rw [if_neg (by omega), if_pos hbkg]
  · intro h3 hbkg
    have hval : isBDTSelected scores thr =
        (if scores.getD 1 0 > thr.bdtPrompt then 2 else 0) |||
        (if scores.getD 2 0 > thr.bdtNonprompt then 4 else 0) := by
      unfold isBDTSelected
      rw [if_neg (by omega), if_neg (not_lt.mpr hbkg)]
    rw [hval]
    by_cases hp : thr.bdtPrompt < scores.getD 1 0 <;>
      by_cases hq : thr.bdtNonprompt < scores.getD 2 0
    · rw [if_pos hp, if_pos hq, show (2 ||| 4 : ℕ) = 6 from rfl]
      refine ⟨iff_of_true (by decide) hp, iff_of_true (by decide) hq, ?_⟩
      intro i h1 h2
      rw [testBit_six_iff]
      simp
      omega
    · rw [if_pos hp, if_neg hq, show (2 ||| 0 : ℕ) = 2 from rfl]
      refine ⟨iff_of_true (by decide) hp, iff_of_false (by decide) hq, ?_⟩
      intro i h1 h2
      rw [testBit_two_iff]
      simp
      omega
    · rw [if_neg hp, if_pos hq, show (0 ||| 4 : ℕ) = 4 from rfl]
      refine ⟨iff_of_false (by decide) hp, iff_of_true (by decide) hq, ?_⟩
      intro i h1 h2
      rw [testBit_four_iff]
      simp
      omega
    · rw [if_neg hp, if_neg hq, show (0 ||| 0 : ℕ) = 0 from rfl]
      refine ⟨iff_of_false (by decide) hp, iff_of_false (by decide) hq, ?_⟩
      intro i _ _
      simp

/-- Claim C1 witness: scores {0, 1, 0} against all-zero thresholds fall in the
third regime and the prompt bit is set. -/
theorem isBDTSelected_characterization_witness :
    3 ≤ ([(0 : ℚ), 1, 0]).length ∧
    ([(0 : ℚ), 1, 0]).getD 0 0 ≤ (⟨0, 0, 0⟩ : BDTThresholds).bdtBkg ∧
    (isBDTSelected [(0 : ℚ), 1, 0] ⟨0, 0, 0⟩).testBit 1 = true := by
  refine ⟨by decide, by decide, ?_⟩
  exact ((isBDTSelected_characterization [(0 : ℚ), 1, 0]
    ⟨0, 0, 0⟩).2.2 (by decide) (by decide)).1.mpr (by decide)

end HFFilters

namespace HFFilters

/-! ### Claim C4: the failure sentinel under normal thresholds -/

/-- Claim C4 counterexample: with all three thresholds `0` (inside the normal
range [0, 1]), the `PredictONNX` failure sentinel `{-1, 2, 2}` does not give
the empty bitmask: the prompt and non-prompt comparisons both pass. -/
theorem isBDTSelected_sentinel_counterexample :
    (0 : ℚ) ≤ (⟨0, 0, 0⟩ : BDTThresholds).bdtBkg ∧
    (⟨0, 0, 0⟩ : BDTThresholds).bdtBkg ≤ 1 ∧
    (0 : ℚ) ≤ (⟨0, 0, 0⟩ : BDTThresholds).bdtPrompt ∧
    (⟨0, 0, 0⟩ : BDTThresholds).bdtPrompt ≤ 1 ∧
    (0 : ℚ) ≤ (⟨0, 0, 0⟩ : BDTThresholds).bdtNonprompt ∧
    (⟨0, 0, 0⟩ : BDTThresholds).bdtNonprompt ≤ 1 ∧
    isBDTSelected [-1, 2, 2] ⟨0, 0, 0⟩ ≠ 0 := by
  decide

/-- Claim C4 (amended): for every threshold configuration with all three
thresholds in [0, 1], `isBDTSelected` on the failure sentinel `{-1, 2, 2}`
never trips the background rejection (−1 is below any nonnegative threshold)
but passes both the prompt and the non-prompt comparisons (2 exceeds any
threshold at most 1), so it returns the bitmask 6 with both origin bits set —
not the empty bitmask. -/
theorem isBDTSelected_sentinel_amended (thr : BDTThresholds)
    (hb0 : 0 ≤ thr.bdtBkg) (hb1 : thr.bdtBkg ≤ 1)
    (hp0 : 0 ≤ thr.bdtPrompt) (hp1 : thr.bdtPrompt ≤ 1)
    (hn0 : 0 ≤ thr.bdtNonprompt) (hn1 : thr.bdtNonprompt ≤ 1) :
    isBDTSelected [-1, 2, 2] thr = 6 := by
  have e0 : ([-1, 2, 2] : List ℚ).getD 0 0 = -1 := rfl
  have e1 : ([-1, 2, 2] : List ℚ).getD 1 0 = 2 := rfl
  have e2 : ([-1, 2, 2] : List ℚ).getD 2 0 = 2 := rfl
  unfold isBDTSelected
  rw [e0, e1, e2, if_neg (by norm_num), if_neg (by intro h; linarith),
    if_pos (by linarith), if_pos (by linarith)]
  decide

/-- Claim C4 witness for the amended statement, at thresholds all `0`. -/
theorem isBDTSelected_sentinel_amended_witness :
    (0 : ℚ) ≤ (⟨0, 0, 0⟩ : BDTThresholds).bdtBkg ∧
    isBDTSelected [-1, 2, 2] ⟨0, 0, 0⟩ = 6 :=
  ⟨by decide, isBDTSelected_sentinel_amended ⟨0, 0, 0⟩ (by decide) (by decide)
    (by decide) (by decide) (by decide) (by decide)⟩

/-! ### Claim C3: clamped calibration-table lookup -/

/-- Claim C3: for every track observable tuple, including values below the
first or above the last bin of each axis, the clamped bin index used by
`getTPCPostCalib` lies in [1, N] on every axis (bin 0 is clamped to 1, bins
above N to N), and the returned value is `(raw − mean) / sigma` at that
clamped 3-D bin. -/
theorem getTPCPostCalib_clamped (hCalibMean hCalibSigma : Calib3D)
    (track : Track) (pidSpecies : ℕ) (raw : ℚ)
    (hx : 1 ≤ hCalibMean.axisX.nbins) (hy : 1 ≤ hCalibMean.axisY.nbins)
    (hz : 1 ≤ hCalibMean.axisZ.nbins)
    (hraw : rawTPCNSigma track pidSpecies = some raw) :
    (∀ (a : Axis) (x : ℚ), 1 ≤ a.nbins →
      (1 ≤ clampBin a x ∧ clampBin a x ≤ a.nbins) ∧
      (a.findBin x = 0 → clampBin a x = 1) ∧
      (a.nbins < a.findBin x → clampBin a x = a.nbins)) ∧
    (1 ≤ clampBin hCalibMean.axisX track.tpcNClsFound ∧
      clampBin hCalibMean.axisX track.tpcNClsFound ≤ hCalibMean.axisX.nbins) ∧
    (1 ≤ clampBin hCalibMean.axisY track.tpcInnerParam ∧
      clampBin hCalibMean.axisY track.tpcInnerParam ≤ hCalibMean.axisY.nbins) ∧
    (1 ≤ clampBin hCalibMean.axisZ track.eta ∧
      clampBin hCalibMean.axisZ track.eta ≤ hCalibMean.axisZ.nbins) ∧
    getTPCPostCalib hCalibMean hCalibSigma track pidSpecies =
      some ((raw -
        hCalibMean.content (clampBin hCalibMean.axisX track.tpcNClsFound)
          (clampBin hCalibMean.axisY track.tpcInnerParam)
          (clampBin hCalibMean.axisZ track.eta)) /
        hCalibSigma.content (clampBin hCalibMean.axisX track.tpcNClsFound)
          (clampBin hCalibMean.axisY track.tpcInnerParam)
          (clampBin hCalibMean.axisZ track.eta)) := by
  have hgen : ∀ (a : Axis) (x : ℚ), 1 ≤ a.nbins →
      (1 ≤ clampBin a x ∧ clampBin a x ≤ a.nbins) ∧
      (a.findBin x = 0 → clampBin a x = 1) ∧
      (a.nbins < a.findBin x → clampBin a x = a.nbins) := by
    intro a x ha
    unfold clampBin
    refine ⟨⟨?_, ?_⟩, ?_, ?_⟩
    · split_ifs <;> omega
    · split_ifs <;> omega
    · intro h0
      split_ifs <;> omega
    · intro hN
      split_ifs <;> omega
  refine ⟨hgen, (hgen _ _ hx).1, (hgen _ _ hy).1, (hgen _ _ hz).1, ?_⟩
  simp [getTPCPostCalib, hraw, tpcCorrected]

/-- Claim C3 witness at a one-bin table with unit contents and the all-zero
track under the proton tag. -/
theorem getTPCPostCalib_clamped_witness :
    1 ≤ calUnit.axisX.nbins ∧
    rawTPCNSigma trackZero kPr = some 0 ∧
    getTPCPostCalib calUnit calUnit trackZero kPr =
      some ((0 -
        calUnit.content (clampBin calUnit.axisX trackZero.tpcNClsFound)
          (clampBin calUnit.axisY trackZero.tpcInnerParam)
          (clampBin calUnit.axisZ trackZero.eta)) /
        calUnit.content (clampBin calUnit.axisX trackZero.tpcNClsFound)
          (clampBin calUnit.axisY trackZero.tpcInnerParam)
          (clampBin calUnit.axisZ trackZero.eta)) := by
  refine ⟨by decide, by decide, ?_⟩
  exact (getTPCPostCalib_clamped calUnit calUnit trackZero kPr 0
    (by decide) (by decide) (by decide) (by decide)).2.2.2.2

/-! ### Claim C5: species dispatch of getTPCPostCalib -/

/-- Claim C5 counterexample: the electron tag `kEl`, although one of the four
recognized PID species, reaches the fatal branch of `getTPCPostCalib`
(modelled as `none`): only kaon, pion and proton are handled. -/
theorem getTPCPostCalib_kEl_counterexample :
    getTPCPostCalib calUnit calUnit trackZero kEl = none := by
  decide

/-- Claim C5 (amended): `getTPCPostCalib` returns normally exactly for the
kaon, pion and proton tags; every other tag — including the electron tag
`kEl` — hits the fatal branch. -/
theorem getTPCPostCalib_species_amended (hCalibMean hCalibSigma : Calib3D)
    (track : Track) (pidSpecies : ℕ) :
    ((pidSpecies = kKa ∨ pidSpecies = kPi ∨ pidSpecies = kPr) →
      ∃ v, getTPCPostCalib hCalibMean hCalibSigma track pidSpecies = some v) ∧
    (pidSpecies ≠ kKa → pidSpecies ≠ kPi → pidSpecies ≠ kPr →
      getTPCPostCalib hCalibMean hCalibSigma track pidSpecies = none) := by
  constructor
  · rintro (rfl | rfl | rfl) <;> exact ⟨_, rfl⟩
  · intro h1 h2 h3
    simp [getTPCPostCalib, rawTPCNSigma, h1, h2, h3]

/-- Claim C5 witness: the pion tag returns normally, the electron tag is
fatal. -/
theorem getTPCPostCalib_species_amended_witness :
    (kEl ≠ kKa ∧ kEl ≠ kPi ∧ kEl ≠ kPr) ∧
    getTPCPostCalib calUnit calUnit trackZero kEl = none ∧
    (∃ v, getTPCPostCalib calUnit calUnit trackZero kPi = some v) :=
  ⟨⟨by decide, by decide, by decide⟩,
    (getTPCPostCalib_species_amended calUnit calUnit trackZero kEl).2
      (by decide) (by decide) (by decide),
    (getTPCPostCalib_species_amended calUnit calUnit trackZero kPi).1
      (Or.inr (Or.inl rfl))⟩

/-! ### Claim C7: proton-for-baryon selection without TOF -/

/-- Claim C7: a track whose (possibly post-calibrated) TPC proton deviation is
within the TPC threshold in absolute value and that has no TOF measurement is
accepted by `isSelectedProton4CharmBaryons`: TOF absence never vetoes, and
the TOF threshold applies only when a TOF measurement exists. -/
theorem isSelectedProton4CharmBaryons_no_tof (track : Track)
    (nsigmaTPCProtonLc nsigmaTOFProtonLc : ℚ) (computeTPCPostCalib : Bool)
    (hMapProtonMean hMapProtonSigma : Calib3D)
    (hTOF : track.hasTOF = false)
    (hTPC : |if computeTPCPostCalib then
        tpcCorrected hMapProtonMean hMapProtonSigma track track.tpcNSigmaPr
      else track.tpcNSigmaPr| ≤ nsigmaTPCProtonLc) :
    isSelectedProton4CharmBaryons track nsigmaTPCProtonLc nsigmaTOFProtonLc
      computeTPCPostCalib hMapProtonMean hMapProtonSigma = true := by
  simp only [isSelectedProton4CharmBaryons, hTOF]
  rw [if_neg (not_lt.mpr hTPC)]
  simp

/-- Claim C7 witness: the all-zero TOF-less track is accepted at unit
thresholds. -/
theorem isSelectedProton4CharmBaryons_no_tof_witness :
    trackZero.hasTOF = false ∧
    |trackZero.tpcNSigmaPr| ≤ (1 : ℚ) ∧
    isSelectedProton4CharmBaryons trackZero 1 1 false calUnit calUnit = true :=
  ⟨by decide, by decide,
    isSelectedProton4CharmBaryons_no_tof trackZero 1 1 false calUnit calUnit
      (by decide) (by decide)⟩

end HFFilters

namespace HFFilters

/-! ### Claim C6: independent-candidate counting -/

/-- Folding `max` from an arbitrary accumulator. -/
theorem foldl_max_acc (l : List ℕ) (a : ℕ) :
    l.foldl max a = max a (l.foldl max 0) := by
  induction l generalizing a with
  | nil => simp
  | cons x xs ih =>
    simp only [List.foldl_cons]
    rw [ih (max a x), ih (max 0 x), Nat.zero_max, max_assoc]

/-- The maximum of an all-zero list is zero. -/
theorem foldl_max_eq_zero (l : List ℕ) (h : ∀ x ∈ l, x = 0) :
    l.foldl max 0 = 0 := by
  induction l with
  | nil => rfl
  | cons x xs ih =>
    have hx : x = 0 := h x (List.mem_cons_self x xs)
    subst hx
    rw [List.foldl_cons]
    simpa using ih fun y hy => h y (List.mem_cons_of_mem _ hy)

/-- Every member is at most the folded maximum. -/
theorem le_foldl_max (l : List ℕ) (x : ℕ) (hx : x ∈ l) :
    x ≤ l.foldl max 0 := by
  induction l with
  | nil => cases hx
  | cons y ys ih =>
    rw [List.foldl_cons, foldl_max_acc]
    rcases List.mem_cons.mp hx with rfl | h
    · simp [Nat.zero_max]
    · exact le_trans (ih h) (le_max_right _ _)

/-- Claim C6: `computeNumberOfCandidates` returns the list length when fewer
than two candidates are supplied; otherwise it returns 0 when every candidate
shares at least one daughter index with every other candidate, and the
sentinel 2 when some candidate shares no daughter index with at least one
other candidate. -/
theorem computeNumberOfCandidates_spec (indices : List (List ℤ)) :
    (indices.length < 2 → computeNumberOfCandidates indices = indices.length) ∧
    (2 ≤ indices.length →
      ((∀ i j, i < indices.length → j < indices.length → i ≠ j →
          hasOverlap (indices.getD i []) (indices.getD j []) = true) →
        computeNumberOfCandidates indices = 0) ∧
      ((∃ i j, i < indices.length ∧ j < indices.length ∧ i ≠ j ∧
          hasOverlap (indices.getD i []) (indices.getD j []) = false) →
        computeNumberOfCandidates indices = 2)) := by
  constructor
  · intro h
    simp [computeNumberOfCandidates, h]
  · intro h2
    constructor
    · intro hall
      have hzero : ∀ x ∈ (List.range indices.length).map (nIndependentOf indices),
          x = 0 := by
        intro x hxm
        rcases List.mem_map.mp hxm with ⟨i, hi, rfl⟩
        have hi' : i < indices.length := List.mem_range.mp hi
        unfold nIndependentOf
        rw [List.length_eq_zero, List.filter_eq_nil_iff]
        intro j hj
        have hj' : j < indices.length := List.mem_range.mp hj
        by_cases hij : j = i
        · subst hij
          simp
        · have hov := hall i j hi' hj' fun h => hij h.symm
          simp only [List.getD_eq_getElem?_getD] at hov
          simp [hov, hij]
      unfold computeNumberOfCandidates
      rw [if_neg (by omega), if_pos (foldl_max_eq_zero _ hzero)]
    · rintro ⟨i, j, hi, hj, hij, hov⟩
      have hmem : j ∈ (List.range indices.length).filter fun jj =>
          jj != i && !hasOverlap (indices.getD i []) (indices.getD jj []) := by
        rw [List.mem_filter]
        refine ⟨List.mem_range.mpr hj, ?_⟩
        simp only [hov, Bool.not_false, Bool.and_true, bne_iff_ne]
        exact fun h => hij h.symm
      have hpos : 1 ≤ nIndependentOf indices i := by
        unfold nIndependentOf
        have := List.length_pos.mpr (List.ne_nil_of_mem hmem)
        omega
      have hle : nIndependentOf indices i ≤
          ((List.range indices.length).map (nIndependentOf indices)).foldl max 0 :=
        le_foldl_max _ _ (List.mem_map.mpr ⟨i, List.mem_range.mpr hi, rfl⟩)
      unfold computeNumberOfCandidates
      rw [if_neg (by omega), if_neg (by omega)]

/-- Claim C6 witness: the two disjoint candidates {1,2} and {3,4} give the
sentinel 2 through the theorem, matching the spec example. -/
theorem computeNumberOfCandidates_spec_witness :
    2 ≤ ([[(1 : ℤ), 2], [3, 4]] : List (List ℤ)).length ∧
    (∃ i j, i < ([[(1 : ℤ), 2], [3, 4]] : List (List ℤ)).length ∧
      j < ([[(1 : ℤ), 2], [3, 4]] : List (List ℤ)).length ∧ i ≠ j ∧
      hasOverlap (([[(1 : ℤ), 2], [3, 4]] : List (List ℤ)).getD i [])
        (([[(1 : ℤ), 2], [3, 4]] : List (List ℤ)).getD j []) = false) ∧
    computeNumberOfCandidates [[(1 : ℤ), 2], [3, 4]] = 2 := by
  refine ⟨by decide, ⟨0, 1, by decide, by decide, by decide, by decide⟩, ?_⟩
  exact ((computeNumberOfCandidates_spec [[(1 : ℤ), 2], [3, 4]]).2 (by decide)).2
    ⟨0, 1, by decide, by decide, by decide, by decide⟩

end HFFilters

namespace HFFilters

/-! ### Claim C2: the mass-window taggers only narrow the bitmask -/

/-- Projection of a guarded step of a mass tagger. -/
theorem fst_step (c : Prop) [Decidable c] (x : ℕ) (l : List QAEvent) :
    (if c then (x, l) else ((0 : ℕ), ([] : List QAEvent))).1 =
      if c then x else 0 := by
  split_ifs <;> rfl

/-- The first component of a tagger step is either `0` or its bit value with
the corresponding input bit set. -/
theorem gated_fst_cases (s k : ℕ) (q : Prop) [Decidable q] (v : ℕ) :
    (if s.testBit k = true then (if q then v else 0) else 0) = 0 ∨
    ((if s.testBit k = true then (if q then v else 0) else 0) = v ∧
      s.testBit k = true) := by
  by_cases hb : s.testBit k = true <;> by_cases hq : q <;> simp [hb, hq]

/-- Claim C2: for every input bitmask `isSelected` and all inputs, the bitmask
returned by each of the D0, Ds, Lc and Xic mass-window taggers is a subset of
`isSelected` (ANDing with `isSelected` leaves it unchanged): the taggers never
set a hypothesis bit the preselection did not propose. -/
theorem massRange_subset_preselection (pTrackPos pTrackNeg : Vec3)
    (pTrackSameChargeFirst pTrackSameChargeSecond pTrackOppositeCharge : Vec3)
    (ptD ptDs ptLc ptXic delta : ℝ) (isSelected : ℕ) (activateQA : ℤ) :
    (isSelectedD0InMassRange pTrackPos pTrackNeg ptD isSelected delta
        activateQA).1 &&& isSelected =
      (isSelectedD0InMassRange pTrackPos pTrackNeg ptD isSelected delta
        activateQA).1 ∧
    (isSelectedDsInMassRange pTrackSameChargeFirst pTrackSameChargeSecond
        pTrackOppositeCharge ptDs isSelected delta activateQA).1 &&&
        isSelected =
      (isSelectedDsInMassRange pTrackSameChargeFirst pTrackSameChargeSecond
        pTrackOppositeCharge ptDs isSelected delta activateQA).1 ∧
    (isSelectedLcInMassRange pTrackSameChargeFirst pTrackSameChargeSecond
        pTrackOppositeCharge ptLc isSelected delta activateQA).1 &&&
        isSelected =
      (isSelectedLcInMassRange pTrackSameChargeFirst pTrackSameChargeSecond
        pTrackOppositeCharge ptLc isSelected delta activateQA).1 ∧
    (isSelectedXicInMassRange pTrackSameChargeFirst pTrackSameChargeSecond
        pTrackOppositeCharge ptXic isSelected delta activateQA).1 &&&
        isSelected =
      (isSelectedXicInMassRange pTrackSameChargeFirst pTrackSameChargeSecond
        pTrackOppositeCharge ptXic isSelected delta activateQA).1 := by
  refine ⟨?_, ?_, ?_, ?_⟩
  · have h := two_bit_subset isSelected _ _
      (gated_fst_cases isSelected 0
        (|recoM2 pTrackPos pTrackNeg massPi massK - massD0| < delta) 1)
      (gated_fst_cases isSelected 1
        (|recoM2 pTrackPos pTrackNeg massK massPi - massD0| < delta) 2)
    simpa only [isSelectedD0InMassRange, fst_step] using h
  · have h := two_bit_subset isSelected _ _
      (gated_fst_cases isSelected 0
        (|recoM3 pTrackSameChargeFirst pTrackOppositeCharge
          pTrackSameChargeSecond massK massK massPi - massDs| < delta) 1)
      (gated_fst_cases isSelected 1
        (|recoM3 pTrackSameChargeFirst pTrackOppositeCharge
          pTrackSameChargeSecond massPi massK massK - massDs| < delta) 2)
    simpa only [isSelectedDsInMassRange, fst_step] using h
  · have h := two_bit_subset isSelected _ _
      (gated_fst_cases isSelected 0
        (|recoM3 pTrackSameChargeFirst pTrackOppositeCharge
          pTrackSameChargeSecond massProton massK massPi - massLc| < delta) 1)
      (gated_fst_cases isSelected 1
        (|recoM3 pTrackSameChargeFirst pTrackOppositeCharge
          pTrackSameChargeSecond massPi massK massProton - massLc| < delta) 2)
    simpa only [isSelectedLcInMassRange, fst_step] using h
  · have h := two_bit_subset isSelected _ _
      (gated_fst_cases isSelected 0
        (|recoM3 pTrackSameChargeFirst pTrackOppositeCharge
          pTrackSameChargeSecond massProton massK massPi - massXic| < delta) 1)
      (gated_fst_cases isSelected 1
        (|recoM3 pTrackSameChargeFirst pTrackOppositeCharge
          pTrackSameChargeSecond massPi massK massProton - massXic| < delta) 2)
    simpa only [isSelectedXicInMassRange, fst_step] using h

/-! ### Claim C9: the QA flag never gates a selection decision -/

/-- Claim C9: every selection helper that takes a QA-activation flag (the
mass-window taggers, `isSelectedProton4Femto`, `isSelectedGamma`) returns the
same selection decision for any two values of `activateQA`: the QA histogram
fills are diagnostic and never gate the result. -/
theorem qa_flag_never_gates (pTrackPos pTrackNeg : Vec3)
    (pTrackSameChargeFirst pTrackSameChargeSecond pTrackOppositeCharge : Vec3)
    (ptD ptDp ptDs ptLc ptXic delta : ℝ) (isSelected : ℕ) (track : Track)
    (femtoMinProtonPt femtoMaxNsigmaProton : ℚ)
    (femtoProtonOnlyTOF computeTPCPostCalib : Bool)
    (hMapProtonMean hMapProtonSigma : Calib3D) (gamma : Gamma)
    (gammaCosinePA : ℚ) (activateQA activateQA' : ℤ) :
    (isSelectedD0InMassRange pTrackPos pTrackNeg ptD isSelected delta
        activateQA).1 =
      (isSelectedD0InMassRange pTrackPos pTrackNeg ptD isSelected delta
        activateQA').1 ∧
    (isSelectedDplusInMassRange pTrackSameChargeFirst pTrackSameChargeSecond
        pTrackOppositeCharge ptDp delta activateQA).1 =
      (isSelectedDplusInMassRange pTrackSameChargeFirst pTrackSameChargeSecond
        pTrackOppositeCharge ptDp delta activateQA').1 ∧
    (isSelectedDsInMassRange pTrackSameChargeFirst pTrackSameChargeSecond
        pTrackOppositeCharge ptDs isSelected delta activateQA).1 =
      (isSelectedDsInMassRange pTrackSameChargeFirst pTrackSameChargeSecond
        pTrackOppositeCharge ptDs isSelected delta activateQA').1 ∧
    (isSelectedLcInMassRange pTrackSameChargeFirst pTrackSameChargeSecond
        pTrackOppositeCharge ptLc isSelected delta activateQA).1 =
      (isSelectedLcInMassRange pTrackSameChargeFirst pTrackSameChargeSecond
        pTrackOppositeCharge ptLc isSelected delta activateQA').1 ∧
    (isSelectedXicInMassRange pTrackSameChargeFirst pTrackSameChargeSecond
        pTrackOppositeCharge ptXic isSelected delta activateQA).1 =
      (isSelectedXicInMassRange pTrackSameChargeFirst pTrackSameChargeSecond
        pTrackOppositeCharge ptXic isSelected delta activateQA').1 ∧
    (isSelectedProton4Femto track femtoMinProtonPt femtoMaxNsigmaProton
        femtoProtonOnlyTOF computeTPCPostCalib hMapProtonMean hMapProtonSigma
        activateQA).1 =
      (isSelectedProton4Femto track femtoMinProtonPt femtoMaxNsigmaProton
        femtoProtonOnlyTOF computeTPCPostCalib hMapProtonMean hMapProtonSigma
        activateQA').1 ∧
    (isSelectedGamma gamma gammaCosinePA activateQA).1 =
      (isSelectedGamma gamma gammaCosinePA activateQA').1 := by
  refine ⟨?_, ?_, ?_, ?_, ?_, ?_, ?_⟩
  · simp only [isSelectedD0InMassRange]
    split_ifs <;> rfl
  · simp only [isSelectedDplusInMassRange]
    split_ifs <;> rfl
  · simp only [isSelectedDsInMassRange]
    split_ifs <;> rfl
  · simp only [isSelectedLcInMassRange]
    split_ifs <;> rfl
  · simp only [isSelectedXicInMassRange]
    split_ifs <;> rfl
  · simp only [isSelectedProton4Femto]
    split_ifs <;> rfl
  · simp only [isSelectedGamma]
    split_ifs <;> rfl

end HFFilters

namespace HFFilters

/-! ### Claim C8: femtoscopy relative momentum -/

/-- Squared norms are nonnegative. -/
theorem normSq_nonneg (v : Vec3) : 0 ≤ normSq v := by
  unfold normSq vdot
  nlinarith [mul_self_nonneg v.x, mul_self_nonneg v.y, mul_self_nonneg v.z]

/-- The proton mass constant is positive. -/
theorem massProton_pos : (0 : ℝ) < massProton := by
  norm_num [massProton]

/-- Cauchy–Schwarz for the explicit three-component dot product. -/
theorem vdot_le_sqrt_mul (a b : Vec3) :
    vdot a b ≤ Real.sqrt (normSq a) * Real.sqrt (normSq b) := by
  have key : (vdot a b) ^ 2 ≤ normSq a * normSq b := by
    unfold normSq vdot
    nlinarith [sq_nonneg (a.x * b.y - a.y * b.x), sq_nonneg (a.x * b.z - a.z * b.x),
      sq_nonneg (a.y * b.z - a.z * b.y)]
  calc vdot a b ≤ |vdot a b| := le_abs_self _
    _ = Real.sqrt ((vdot a b) ^ 2) := (Real.sqrt_sq_eq_abs _).symm
    _ ≤ Real.sqrt (normSq a * normSq b) := Real.sqrt_le_sqrt key
    _ = Real.sqrt (normSq a) * Real.sqrt (normSq b) :=
        Real.sqrt_mul (normSq_nonneg a) _

/-- Rotations preserve squared norms. -/
theorem normSq_rot {r : Vec3 → Vec3} (hR : IsRotation r) (v : Vec3) :
    normSq (r v) = normSq v := by
  unfold normSq
  exact hR.map_vdot v v

/-- Rotations preserve relativistic energies. -/
theorem energyOf_rot {r : Vec3 → Vec3} (hR : IsRotation r) (p : Vec3) (m : ℝ) :
    energyOf (r p) m = energyOf p m := by
  unfold energyOf
  rw [normSq_rot hR]

/-- Rotations commute with vector differences. -/
theorem map_vsub_rot {r : Vec3 → Vec3} (hR : IsRotation r) (u v : Vec3) :
    r (vsub u v) = vsub (r u) (r v) := by
  have h1 : vsub u v = vadd u (smul (-1) v) := by
    apply Vec3.ext <;> (dsimp only [vsub, vadd, smul]; ring)
  have h2 : vsub (r u) (r v) = vadd (r u) (smul (-1) (r v)) := by
    apply Vec3.ext <;> (dsimp only [vsub, vadd, smul]; ring)
  rw [h1, h2, hR.map_vadd, hR.map_smul]

/-- Rotations commute with the center-of-mass boost velocity. -/
theorem betaCM_rot {r : Vec3 → Vec3} (hR : IsRotation r) (p1 p2 : Vec3)
    (m1 m2 : ℝ) :
    betaCM (r p1) (r p2) m1 m2 = r (betaCM p1 p2 m1 m2) := by
  unfold betaCM
  rw [energyOf_rot hR, energyOf_rot hR, ← hR.map_vadd, ← hR.map_smul]

/-- Rotating the boost velocity leaves the Lorentz factor unchanged. -/
theorem gammaOf_rot {r : Vec3 → Vec3} (hR : IsRotation r) (b : Vec3) :
    gammaOf (r b) = gammaOf b := by
  unfold gammaOf
  rw [hR.map_vdot]

/-- Rotating the boost velocity leaves the boost matrix coefficient
unchanged. -/
theorem bgammaOf_rot {r : Vec3 → Vec3} (hR : IsRotation r) (b : Vec3) :
    bgammaOf (r b) = bgammaOf b := by
  unfold bgammaOf
  rw [gammaOf_rot hR]

/-- Rotations commute with the spatial part of a boost. -/
theorem boostSpatial_rot {r : Vec3 → Vec3} (hR : IsRotation r) (b : Vec3)
    (e : ℝ) (p : Vec3) :
    boostSpatial (r b) e (r p) = r (boostSpatial b e p) := by
  unfold boostSpatial
  rw [gammaOf_rot hR, bgammaOf_rot hR, hR.map_vdot, ← hR.map_smul, ← hR.map_vadd]

/-- The two boosted momenta sum to the zero vector whenever the scalar
coefficient vanishes: the pure vector algebra of the boost. -/
theorem boost_pair_sum (c e1 e2 : ℝ) (p1 p2 : Vec3)
    (hK : 1 + (bgammaOf (smul c (vadd p1 p2)) * (c * normSq (vadd p1 p2)) +
      gammaOf (smul c (vadd p1 p2)) * (e1 + e2)) * c = 0) :
    vadd (boostSpatial (smul c (vadd p1 p2)) e1 p1)
      (boostSpatial (smul c (vadd p1 p2)) e2 p2) = vzero := by
  dsimp only [boostSpatial, vadd, smul, vdot, normSq, vzero] at hK ⊢
  refine Vec3.ext ?_ ?_ ?_ <;> dsimp only
  · linear_combination (p1.x + p2.x) * hK
  · linear_combination (p1.y + p2.y) * hK
  · linear_combination (p1.z + p2.z) * hK

/-- Boosting both four-vectors with the `BoostToCM` velocity of their sum
really lands in the center-of-mass frame: the boosted three-momenta cancel
(the first mass must be positive, as the proton mass is, so that the pair is
timelike). -/
theorem boost_to_cm_sum (p1 p2 : Vec3) (m1 m2 : ℝ) (hm1 : 0 < m1) :
    vadd (boostSpatial (betaCM p1 p2 m1 m2) (energyOf p1 m1) p1)
      (boostSpatial (betaCM p1 p2 m1 m2) (energyOf p2 m2) p2) = vzero := by
  have hbeta : betaCM p1 p2 m1 m2 =
      smul (-(1 / (energyOf p1 m1 + energyOf p2 m2))) (vadd p1 p2) := rfl
  rw [hbeta]
  apply boost_pair_sum
  set e1 := energyOf p1 m1 with he1
  set e2 := energyOf p2 m2 with he2
  set c := -(1 / (e1 + e2)) with hc
  set P := vadd p1 p2 with hP
  set Q := normSq P with hQ
  set b := smul c P with hb
  have he1sq : e1 ^ 2 = normSq p1 + m1 ^ 2 := by
    rw [he1]
    unfold energyOf
    exact Real.sq_sqrt (add_nonneg (normSq_nonneg p1) (sq_nonneg m1))
  have he2sq : e2 ^ 2 = normSq p2 + m2 ^ 2 := by
    rw [he2]
    unfold energyOf
    exact Real.sq_sqrt (add_nonneg (normSq_nonneg p2) (sq_nonneg m2))
  have h1 : Real.sqrt (normSq p1) < e1 := by
    rw [he1]
    unfold energyOf
    exact Real.sqrt_lt_sqrt (normSq_nonneg p1) (by nlinarith)
  have h2 : Real.sqrt (normSq p2) ≤ e2 := by
    rw [he2]
    unfold energyOf
    exact Real.sqrt_le_sqrt (by nlinarith [sq_nonneg m2])
  have he1pos : 0 < e1 := lt_of_le_of_lt (Real.sqrt_nonneg _) h1
  have he2nonneg : 0 ≤ e2 := le_trans (Real.sqrt_nonneg _) h2
  have hE : 0 < e1 + e2 := by linarith
  have cauchy := vdot_le_sqrt_mul p1 p2
  have hprod : Real.sqrt (normSq p1) * Real.sqrt (normSq p2) ≤ e1 * e2 :=
    mul_le_mul h1.le h2 (Real.sqrt_nonneg _) he1pos.le
  have hsq1 : Real.sqrt (normSq p1) ^ 2 = normSq p1 :=
    Real.sq_sqrt (normSq_nonneg p1)
  have hsq2 : Real.sqrt (normSq p2) ^ 2 = normSq p2 :=
    Real.sq_sqrt (normSq_nonneg p2)
  have hQP : Q = normSq p1 + 2 * vdot p1 p2 + normSq p2 := by
    rw [hQ, hP]
    unfold normSq vdot vadd
    ring
  have hQlt : Q < (e1 + e2) ^ 2 := by
    nlinarith [cauchy, hprod, hsq1, hsq2, he1sq, he2sq, hQP, hm1,
      mul_pos hm1 hm1]
  have hcE : (e1 + e2) * c = -1 := by
    rw [hc]
    field_simp
  have hcne : c ≠ 0 := by
    intro h
    rw [h, mul_zero] at hcE
    norm_num at hcE
  have hc2pos : 0 < c ^ 2 :=
    lt_of_le_of_ne (sq_nonneg c) (Ne.symm (pow_ne_zero 2 hcne))
  have hcEsq : c ^ 2 * (e1 + e2) ^ 2 = 1 := by nlinarith [hcE]
  have hbb : vdot b b = c ^ 2 * Q := by
    rw [hb, hQ]
    unfold normSq vdot smul
    ring
  have hD : 0 < 1 - vdot b b := by
    rw [hbb]
    nlinarith [hQlt, hc2pos, hcEsq]
  have hgpos : 0 < gammaOf b := by
    unfold gammaOf
    exact div_pos one_pos (Real.sqrt_pos.mpr hD)
  have hgsq : gammaOf b ^ 2 * (1 - vdot b b) = 1 := by
    have hs : Real.sqrt (1 - vdot b b) ≠ 0 := ne_of_gt (Real.sqrt_pos.mpr hD)
    unfold gammaOf
    rw [div_pow, one_pow, Real.sq_sqrt hD.le]
    field_simp
  have hbg : bgammaOf b * vdot b b = gammaOf b - 1 := by
    have h1g : (1 : ℝ) + gammaOf b ≠ 0 := by linarith
    unfold bgammaOf
    field_simp
    linear_combination -hgsq
  linear_combination hbg - bgammaOf b * hbb + gammaOf b * hcE

/-- Claim C8: `computeRelativeMomentum` is invariant under a simultaneous
rotation of the track momentum and the candidate momentum, and the boost it
applies genuinely reaches the pair's center-of-mass frame (the boosted
three-momenta cancel), so the result is half the magnitude of the difference
three-momentum in that frame. -/
theorem computeRelativeMomentum_rotation_invariant (r : Vec3 → Vec3)
    (hR : IsRotation r) (trackMom charmCandMomentum : Vec3) (charmMass : ℝ) :
    computeRelativeMomentum (r trackMom) (r charmCandMomentum) charmMass =
      computeRelativeMomentum trackMom charmCandMomentum charmMass ∧
    vadd (boostSpatial (betaCM trackMom charmCandMomentum massProton charmMass)
        (energyOf trackMom massProton) trackMom)
      (boostSpatial (betaCM trackMom charmCandMomentum massProton charmMass)
        (energyOf charmCandMomentum charmMass) charmCandMomentum) = vzero := by
  constructor
  · simp only [computeRelativeMomentum]
    rw [energyOf_rot hR, energyOf_rot hR, betaCM_rot hR, boostSpatial_rot hR,
      boostSpatial_rot hR, ← map_vsub_rot hR, normSq_rot hR]
  · exact boost_to_cm_sum trackMom charmCandMomentum massProton charmMass
      massProton_pos

/-- Claim C8 witness: the quarter-turn about z is a rotation, and the theorem
applies to it at concrete momenta. -/
theorem computeRelativeMomentum_rotation_invariant_witness :
    IsRotation rotZ ∧
    computeRelativeMomentum (rotZ ⟨1, 0, 0⟩) (rotZ ⟨0, 1, 0⟩) 2 =
      computeRelativeMomentum ⟨1, 0, 0⟩ ⟨0, 1, 0⟩ 2 := by
  have hrot : IsRotation rotZ := by
    refine ⟨?_, ?_, ?_⟩
    · intro u v
      apply Vec3.ext <;> (dsimp only [rotZ, vadd]; try ring)
    · intro c v
      apply Vec3.ext <;> (dsimp only [rotZ, smul]; try ring)
    · intro u v
      dsimp only [rotZ, vdot]
      ring
  exact ⟨hrot,
    (computeRelativeMomentum_rotation_invariant rotZ hrot ⟨1, 0, 0⟩ ⟨0, 1, 0⟩ 2).1⟩

end HFFilters

namespace DalitzSel

/-! ### Claim C10: Dalitz bits come only from selected opposite-sign pairs -/

/-- Bit membership after a `uint8_t` bit-set operation. -/
theorem testBit_setBit8 (m j i : ℕ) :
    (setBit8 m j).testBit i =
      (decide (i < 8) && (m.testBit i || decide (j = i))) := by
  unfold setBit8
  rw [show (256 : ℕ) = 2 ^ 8 from rfl, Nat.testBit_mod_two_pow,
    Nat.testBit_lor, Nat.one_shiftLeft, Nat.testBit_two_pow]

/-- Generic spec of the filter-map building fold: a set bit comes either from
the accumulator or from a processed index whose cut passed. -/
theorem testBit_filter_foldl (cond : ℕ → Bool) (l : List ℕ) (acc : ℕ) (i : ℕ)
    (h : ((l.foldl (fun fm j => if cond j then setBit8 fm j else fm)
      acc).testBit i) = true) :
    acc.testBit i = true ∨ (i ∈ l ∧ cond i = true ∧ i < 8) := by
  induction l generalizing acc with
  | nil => exact Or.inl h
  | cons j l ih =>
    rw [List.foldl_cons] at h
    rcases ih _ h with hacc | hrest
    · by_cases hc : cond j = true
      · rw [if_pos hc, testBit_setBit8] at hacc
        simp only [Bool.and_eq_true, Bool.or_eq_true, decide_eq_true_eq] at hacc
        rcases hacc.2 with hm | rfl
        · exact Or.inl hm
        · exact Or.inr ⟨List.mem_cons_self _ _, hc, hacc.1⟩
      · rw [if_neg hc] at hacc
        exact Or.inl hacc
    · exact Or.inr ⟨List.mem_cons_of_mem _ hrest.1, hrest.2⟩

/-- A bit set in a track's filter map certifies that the corresponding track
cut exists, is below the eight-bit width, and accepted the track. -/
theorem filterMapOf_testBit (trackCuts : List (DTrack → Bool)) (t : DTrack)
    (i : ℕ) (h : (filterMapOf trackCuts t).testBit i = true) :
    (trackCuts.getD i fun _ => false) t = true ∧ i < trackCuts.length ∧
      i < 8 := by
  unfold filterMapOf at h
  rcases testBit_filter_foldl (fun j => (trackCuts.getD j fun _ => false) t)
      _ _ _ h with h0 | ⟨hmem, hcond, h8⟩
  · simp at h0
  · exact ⟨hcond, List.mem_range.mp hmem, h8⟩

/-- Writes at other indices do not change a map lookup. -/
theorem trackSel_foldl_not_mem (trackCuts : List (DTrack → Bool))
    (ts : List DTrack) (m0 : ℕ → ℕ) (g : ℕ)
    (hg : g ∉ ts.map DTrack.globalIndex) :
    ts.foldl (fun tm t =>
      let fm := filterMapOf trackCuts t
      if fm ≠ 0 then updateMap tm t.globalIndex fm else tm) m0 g = m0 g := by
  induction ts generalizing m0 with
  | nil => rfl
  | cons t ts ih =>
    simp only [List.map_cons, List.mem_cons, not_or] at hg
    rw [List.foldl_cons, ih _ hg.2]
    show (if filterMapOf trackCuts t ≠ 0 then
      updateMap m0 t.globalIndex (filterMapOf trackCuts t) else m0) g = m0 g
    split_ifs with h
    · dsimp only [updateMap]
      rw [if_neg hg.1]
    · rfl

/-- Generalized track-selection lookup: starting from a map that is zero on
all listed indices, after the fold the lookup of a listed track is exactly
its filter map. -/
theorem trackSel_foldl_mem (trackCuts : List (DTrack → Bool))
    (ts : List DTrack) (m0 : ℕ → ℕ)
    (hnodup : (ts.map DTrack.globalIndex).Nodup)
    (h0 : ∀ u ∈ ts, m0 u.globalIndex = 0) (t : DTrack) (ht : t ∈ ts) :
    ts.foldl (fun tm u =>
      let fm := filterMapOf trackCuts u
      if fm ≠ 0 then updateMap tm u.globalIndex fm else tm) m0 t.globalIndex =
      filterMapOf trackCuts t := by
  induction ts generalizing m0 with
  | nil => cases ht
  | cons u us ih =>
    have hnodup' : (u.globalIndex ∉ us.map DTrack.globalIndex) ∧
        (us.map DTrack.globalIndex).Nodup := by
      rw [List.map_cons, List.nodup_cons] at hnodup
      exact hnodup
    rw [List.foldl_cons]
    rcases List.mem_cons.mp ht with rfl | hmem
    · rw [trackSel_foldl_not_mem trackCuts us _ _ hnodup'.1]
      show (if filterMapOf trackCuts t ≠ 0 then
        updateMap m0 t.globalIndex (filterMapOf trackCuts t) else m0)
          t.globalIndex = filterMapOf trackCuts t
      split_ifs with h
      · dsimp only [updateMap]
        rw [if_pos rfl]
      · rw [h0 t (List.mem_cons_self t us)]
        exact (not_not.mp h).symm
    · have hzero : ∀ v ∈ us,
          (if filterMapOf trackCuts u ≠ 0 then
            updateMap m0 u.globalIndex (filterMapOf trackCuts u) else m0)
            v.globalIndex = 0 := by
        intro v hv
        have hne : v.globalIndex ≠ u.globalIndex := fun he =>
          hnodup'.1 (he ▸ List.mem_map_of_mem DTrack.globalIndex hv)
        split_ifs with h
        · dsimp only [updateMap]
          rw [if_neg hne]
          exact h0 v (List.mem_cons_of_mem _ hv)
        · exact h0 v (List.mem_cons_of_mem _ hv)
      exact ih _ hnodup'.2 hzero hmem

/-- With framework-unique global indices, the stored filter map of a
processed track is exactly `filterMapOf`. -/
theorem runTrackSelection_mem (trackCuts : List (DTrack → Bool))
    (tracks : List DTrack) (hnodup : (tracks.map DTrack.globalIndex).Nodup)
    (t : DTrack) (ht : t ∈ tracks) :
    runTrackSelection trackCuts tracks t.globalIndex =
      filterMapOf trackCuts t := by
  unfold runTrackSelection
  exact trackSel_foldl_mem trackCuts tracks _ hnodup (fun _ _ => rfl) t ht

/-- Bit membership after `fDalitzmap[g'] |= BIT(j)`. -/
theorem testBit_orBit (dm : ℕ → ℕ) (g' j g i : ℕ)
    (h : ((orBit dm g' j) g).testBit i = true) :
    (dm g).testBit i = true ∨ (g = g' ∧ i = j ∧ i < 8) := by
  simp only [orBit, updateMap] at h
  by_cases hg : g = g'
  · rw [if_pos hg, testBit_setBit8] at h
    simp only [Bool.and_eq_true, Bool.or_eq_true, decide_eq_true_eq] at h
    rcases h.2 with hm | rfl
    · rw [hg]
      exact Or.inl hm
    · exact Or.inr ⟨hg, rfl, h.1⟩
  · rw [if_neg hg] at h
    exact Or.inl h

/-- Spec of one pair-loop body: every new bit is certified by the sign veto,
the shared filter-map bit and the corresponding pair cut. -/
theorem pairStep_testBit (pairCuts : List (DTrack → DTrack → Bool))
    (tm dm : ℕ → ℕ) (t1 t2 : DTrack) (g i : ℕ)
    (h : ((pairStep pairCuts tm dm t1 t2) g).testBit i = true) :
    (dm g).testBit i = true ∨
    (¬(t1.sign * t2.sign > 0) ∧ (g = t1.globalIndex ∨ g = t2.globalIndex) ∧
      (tm t1.globalIndex &&& tm t2.globalIndex).testBit i = true ∧
      i < pairCuts.length ∧
      (pairCuts.getD i fun _ _ => false) t1 t2 = true) := by
  unfold pairStep at h
  by_cases hsign : t1.sign * t2.sign > 0
  · rw [if_pos hsign] at h
    exact Or.inl h
  · rw [if_neg hsign] at h
    by_cases htw0 : tm t1.globalIndex &&& tm t2.globalIndex = 0
    · rw [if_pos htw0] at h
      exact Or.inl h
    · rw [if_neg htw0] at h
      have inner : ∀ (l : List ℕ) (dm0 : ℕ → ℕ),
          (((l.foldl (fun dm' icut =>
            if (tm t1.globalIndex &&& tm t2.globalIndex).testBit icut then
              if (pairCuts.getD icut fun _ _ => false) t1 t2 then
                orBit (orBit dm' t1.globalIndex icut) t2.globalIndex icut
              else dm'
            else dm') dm0) g).testBit i = true) →
          (dm0 g).testBit i = true ∨
          (i ∈ l ∧ (g = t1.globalIndex ∨ g = t2.globalIndex) ∧
            (tm t1.globalIndex &&& tm t2.globalIndex).testBit i = true ∧
            (pairCuts.getD i fun _ _ => false) t1 t2 = true) := by
        intro l
        induction l with
        | nil => exact fun dm0 h0 => Or.inl h0
        | cons icut l ih =>
          intro dm0 h0
          rw [List.foldl_cons] at h0
          rcases ih _ h0 with hacc | hrest
          · by_cases hbit : (tm t1.globalIndex &&&
                tm t2.globalIndex).testBit icut = true
            · rw [if_pos hbit] at hacc
              by_cases hpc : (pairCuts.getD icut fun _ _ => false) t1 t2 = true
              · rw [if_pos hpc] at hacc
                rcases testBit_orBit _ _ _ _ _ hacc with hacc2 | ⟨hgeq, rfl, _⟩
                · rcases testBit_orBit _ _ _ _ _ hacc2 with hacc3 | ⟨hgeq, rfl, _⟩
                  · exact Or.inl hacc3
                  · exact Or.inr ⟨List.mem_cons_self _ _, Or.inl hgeq, hbit, hpc⟩
                · exact Or.inr ⟨List.mem_cons_self _ _, Or.inr hgeq, hbit, hpc⟩
              · rw [if_neg hpc] at hacc
                exact Or.inl hacc
            · rw [if_neg hbit] at hacc
              exact Or.inl hacc
          · exact Or.inr ⟨List.mem_cons_of_mem _ hrest.1, hrest.2⟩
      rcases inner _ _ h with h0 | ⟨hmem, hgeq, hbit, hpc⟩
      · exact Or.inl h0
      · exact Or.inr ⟨hsign, hgeq, hbit, List.mem_range.mp hmem, hpc⟩

/-- Members of the strictly-upper pair list are members of the track list. -/
theorem pairsSU_mem {α : Type} (l : List α) (p : α × α) (hp : p ∈ pairsSU l) :
    p.1 ∈ l ∧ p.2 ∈ l := by
  induction l with
  | nil => cases hp
  | cons t ts ih =>
    unfold pairsSU at hp
    rw [List.mem_append] at hp
    rcases hp with h | h
    · rcases List.mem_map.mp h with ⟨u, hu, rfl⟩
      exact ⟨List.mem_cons_self _ _, List.mem_cons_of_mem _ hu⟩
    · exact ⟨List.mem_cons_of_mem _ (ih h).1, List.mem_cons_of_mem _ (ih h).2⟩

/-- Every bit of the final Dalitz map at any index comes from some processed
pair of tracks that passed the sign veto, shared the filter-map bit and
passed the pair cut. -/
theorem runDalitzPairing_testBit (pairCuts : List (DTrack → DTrack → Bool))
    (tracks : List DTrack) (tm : ℕ → ℕ) (g i : ℕ)
    (h : ((runDalitzPairing pairCuts tracks tm) g).testBit i = true) :
    ∃ t1 t2, t1 ∈ tracks ∧ t2 ∈ tracks ∧ ¬(t1.sign * t2.sign > 0) ∧
      (g = t1.globalIndex ∨ g = t2.globalIndex) ∧
      (tm t1.globalIndex &&& tm t2.globalIndex).testBit i = true ∧
      i < pairCuts.length ∧
      (pairCuts.getD i fun _ _ => false) t1 t2 = true := by
  unfold runDalitzPairing at h
  have aux : ∀ (ps : List (DTrack × DTrack)) (dm0 : ℕ → ℕ),
      (((ps.foldl (fun dm p => pairStep pairCuts tm dm p.1 p.2) dm0)
        g).testBit i = true) →
      (dm0 g).testBit i = true ∨
      (∃ p ∈ ps, ¬(p.1.sign * p.2.sign > 0) ∧
        (g = p.1.globalIndex ∨ g = p.2.globalIndex) ∧
        (tm p.1.globalIndex &&& tm p.2.globalIndex).testBit i = true ∧
        i < pairCuts.length ∧
        (pairCuts.getD i fun _ _ => false) p.1 p.2 = true) := by
    intro ps
    induction ps with
    | nil => exact fun dm0 h0 => Or.inl h0
    | cons p ps ih =>
      intro dm0 h0
      rw [List.foldl_cons] at h0
      rcases ih _ h0 with hacc | ⟨q, hq, hrest⟩
      · rcases pairStep_testBit _ _ _ _ _ _ _ hacc with h1 | h1
        · exact Or.inl h1
        · exact Or.inr ⟨p, List.mem_cons_self _ _, h1⟩
      · exact Or.inr ⟨q, List.mem_cons_of_mem _ hq, hrest⟩
  rcases aux _ _ h with h0 | ⟨p, hp, hrest⟩
  · simp at h0
  · obtain ⟨hp1, hp2⟩ := pairsSU_mem tracks p hp
    exact ⟨p.1, p.2, hp1, hp2, hrest⟩

/-- Claim C10: in one processed event, a track's Dalitz bit `i` can be set
only if that track passed track cut `i` and was paired with an opposite-sign
partner that also passed track cut `i`, with the pair passing pair cut `i`;
consequently the set bits of every track's Dalitz bitmap are a subset of the
set bits of its track-cut filter map. -/
theorem dalitzBits_subset_filterMap (trackCuts : List (DTrack → Bool))
    (pairCuts : List (DTrack → DTrack → Bool)) (tracks : List DTrack)
    (hnodup : (tracks.map DTrack.globalIndex).Nodup)
    (hsigns : ∀ t ∈ tracks, t.sign = 1 ∨ t.sign = -1) :
    ∀ t ∈ tracks,
      (∀ i, (dalitzBitsOfEvent trackCuts pairCuts tracks
          t.globalIndex).testBit i = true →
        ((filterMapOf trackCuts t).testBit i = true ∧
         (trackCuts.getD i fun _ => false) t = true ∧
         ∃ t1 t2, t1 ∈ tracks ∧ t2 ∈ tracks ∧ (t = t1 ∨ t = t2) ∧
           t1.sign ≠ t2.sign ∧
           (trackCuts.getD i fun _ => false) t1 = true ∧
           (trackCuts.getD i fun _ => false) t2 = true ∧
           (pairCuts.getD i fun _ _ => false) t1 t2 = true)) ∧
      dalitzBitsOfEvent trackCuts pairCuts tracks t.globalIndex &&&
        filterMapOf trackCuts t =
        dalitzBitsOfEvent trackCuts pairCuts tracks t.globalIndex := by
  intro t ht
  have hmain : ∀ i, (dalitzBitsOfEvent trackCuts pairCuts tracks
      t.globalIndex).testBit i = true →
      ((filterMapOf trackCuts t).testBit i = true ∧
       (trackCuts.getD i fun _ => false) t = true ∧
       ∃ t1 t2, t1 ∈ tracks ∧ t2 ∈ tracks ∧ (t = t1 ∨ t = t2) ∧
         t1.sign ≠ t2.sign ∧
         (trackCuts.getD i fun _ => false) t1 = true ∧
         (trackCuts.getD i fun _ => false) t2 = true ∧
         (pairCuts.getD i fun _ _ => false) t1 t2 = true) := by
    intro i hbit
    unfold dalitzBitsOfEvent at hbit
    obtain ⟨t1, t2, ht1, ht2, hsign, hg, htw, _, hpc⟩ :=
      runDalitzPairing_testBit _ _ _ _ _ hbit
    rw [runTrackSelection_mem trackCuts tracks hnodup t1 ht1,
      runTrackSelection_mem trackCuts tracks hnodup t2 ht2,
      Nat.testBit_land, Bool.and_eq_true] at htw
    have hteq : t = t1 ∨ t = t2 := by
      rcases hg with hg | hg
      · exact Or.inl (List.inj_on_of_nodup_map hnodup ht ht1 hg)
      · exact Or.inr (List.inj_on_of_nodup_map hnodup ht ht2 hg)
    have hsne : t1.sign ≠ t2.sign := by
      intro he
      apply hsign
      rcases hsigns t2 ht2 with h2 | h2 <;> rw [he, h2] <;> norm_num
    have hfmt : (filterMapOf trackCuts t).testBit i = true := by
      rcases hteq with rfl | rfl
      · exact htw.1
      · exact htw.2
    exact ⟨hfmt, (filterMapOf_testBit _ _ _ hfmt).1, t1, t2, ht1, ht2, hteq,
      hsne, (filterMapOf_testBit _ _ _ htw.1).1,
      (filterMapOf_testBit _ _ _ htw.2).1, hpc⟩
  refine ⟨hmain, ?_⟩
  apply HFFilters.land_eq_self_of_testBit
  intro i hi
  exact (hmain i hi).1

/-- Claim C10 witness: two opposite-sign tracks with distinct indices under a
single always-true track and pair cut. -/
theorem dalitzBits_subset_filterMap_witness :
    (([dtPos, dtNeg].map DTrack.globalIndex).Nodup) ∧
    (∀ t ∈ [dtPos, dtNeg], t.sign = 1 ∨ t.sign = -1) ∧
    (∀ t ∈ [dtPos, dtNeg],
      (∀ i, (dalitzBitsOfEvent cutsAll pairCutsAll [dtPos, dtNeg]
          t.globalIndex).testBit i = true →
        ((filterMapOf cutsAll t).testBit i = true ∧
         (cutsAll.getD i fun _ => false) t = true ∧
         ∃ t1 t2, t1 ∈ [dtPos, dtNeg] ∧ t2 ∈ [dtPos, dtNeg] ∧
           (t = t1 ∨ t = t2) ∧ t1.sign ≠ t2.sign ∧
           (cutsAll.getD i fun _ => false) t1 = true ∧
           (cutsAll.getD i fun _ => false) t2 = true ∧
           (pairCutsAll.getD i fun _ _ => false) t1 t2 = true)) ∧
      dalitzBitsOfEvent cutsAll pairCutsAll [dtPos, dtNeg] t.globalIndex &&&
        filterMapOf cutsAll t =
        dalitzBitsOfEvent cutsAll pairCutsAll [dtPos, dtNeg] t.globalIndex) :=
  ⟨by decide, by decide,
    dalitzBits_subset_filterMap cutsAll pairCutsAll [dtPos, dtNeg]
      (by decide) (by decide)⟩

end DalitzSel
